import Mathlib

/-!
Shallow embedding of the content-addressed `FileStore`
(`src/store/file_store.rs` of task-maker-rust) and proofs about it.

Modelling conventions:
* machine bytes are `Nat` values (the code only moves bytes around, it never
  does arithmetic on them);
* the Blake2b digest is abstracted as an arbitrary function
  `H : List Nat → List Nat` applied to the accumulated input bytes; every
  theorem is stated for an arbitrary `H`, so nothing depends on the digest
  internals, only on the data flow `path → content → digest`;
* the filesystem is an explicit association list from paths (lists of
  components) to file metadata (content bytes, readonly bit, creation and
  modification timestamps);
* fallible I/O is modelled by an explicit environment `Env` of failure
  oracles: `writeFails i` says whether the i-th chunk write of `store`
  fails, `removeFails p` whether deleting the file at `p` fails;
* `Utc::now()` is modelled by threading an explicit `now : Int` (unix
  seconds) into each operation;
* a Rust `panic!`/`expect` aborts the process, modelled by the `POut.panicked`
  constructor.
-/

/-- Association-list lookup, modelling `HashMap::get` / `contains_key`. -/
def alookup {α β : Type} [DecidableEq α] : List (α × β) → α → Option β
  | [], _ => none
  | (k, v) :: rest, k2 => if k2 = k then some v else alookup rest k2

/-- Association-list insert-or-replace, modelling `HashMap::insert`. -/
def ainsert {α β : Type} [DecidableEq α] : List (α × β) → α → β → List (α × β)
  | [], k2, v2 => [(k2, v2)]
  | (k, v) :: rest, k2, v2 =>
    if k2 = k then (k2, v2) :: rest else (k, v) :: ainsert rest k2 v2

/-- Association-list removal, modelling `HashMap::remove`. -/
def aerase {α β : Type} [DecidableEq α] : List (α × β) → α → List (α × β)
  | [], _ => []
  | (k, v) :: rest, k2 =>
    if k2 = k then aerase rest k2 else (k, v) :: aerase rest k2

theorem alookup_ainsert {α β : Type} [DecidableEq α]
    (l : List (α × β)) (k : α) (v : β) : alookup (ainsert l k v) k = some v := by
  induction l with
  | nil => simp [ainsert, alookup]
  | cons hd tl ih =>
    obtain ⟨k0, v0⟩ := hd
    by_cases h : k = k0 <;> simp [ainsert, alookup, h, ih]

theorem alookup_aerase {α β : Type} [DecidableEq α]
    (l : List (α × β)) (k : α) : alookup (aerase l k) k = none := by
  induction l with
  | nil => simp [aerase, alookup]
  | cons hd tl ih =>
    obtain ⟨k0, v0⟩ := hd
    by_cases h : k = k0
    · subst h
      simp [aerase, alookup, ih]
    · simp [aerase, alookup, h, ih]

/-- One hex digit (lowercase), as produced by `hex::encode`. -/
def hexDigit (n : Nat) : Char :=
  if n < 10 then Char.ofNat (48 + n) else Char.ofNat (87 + n)

/-- Lowercase hexadecimal encoding of one byte (`hex::encode` of a
single-byte slice). -/
def hexByte (b : Nat) : String :=
  String.mk [hexDigit ((b / 16) % 16), hexDigit (b % 16)]

/-- `hex::encode`: lowercase hexadecimal encoding of a byte sequence. -/
def hexEncode (bs : List Nat) : String :=
  String.join (bs.map hexByte)

/-- Buffer size with which `ReadFileIterator` chunks a file (any positive
constant; the theorems never depend on its value). -/
def readBufferSize : Nat := 1024

/-- Fuel-bounded splitting into buffer-sized chunks (the fuel is always
instantiated with the list length, which bounds the number of chunks). -/
def chunksOfAux : Nat → List Nat → List (List Nat)
  | _, [] => []
  | 0, l => [l]
  | fuel + 1, l => l.take readBufferSize :: chunksOfAux fuel (l.drop readBufferSize)

/-- Modelled from the spec: `ReadFileIterator` (its definition is not among
the sources shown) reads a file as a lazy, finite sequence of byte chunks
whose concatenation is the file content.  `chunksOf` produces that chunk
sequence from the content bytes. -/
def chunksOf (l : List Nat) : List (List Nat) :=
  chunksOfAux l.length l

/-- The incremental Blake2b hasher state: the bytes fed so far.  The digest
function itself is abstracted as a parameter `H` applied by `result`. -/
structure Blake2b where
  acc : List Nat
deriving DecidableEq, Repr

/-- `Blake2b::new()`. -/
def Blake2b.new : Blake2b := ⟨[]⟩

/-- `hasher.input(&buf)`: feed one chunk of bytes. -/
def Blake2b.input (h : Blake2b) (buf : List Nat) : Blake2b := ⟨h.acc ++ buf⟩

/-- `hasher.result().to_vec()`: the digest `H` of all bytes fed so far. -/
def Blake2b.result (H : List Nat → List Nat) (h : Blake2b) : List Nat :=
  H h.acc

theorem chunksOfAux_flatten (fuel : Nat) (l : List Nat) :
    (chunksOfAux fuel l).flatten = l := by
  induction fuel generalizing l with
  | zero =>
    cases l with
    | nil => simp [chunksOfAux]
    | cons a t => simp [chunksOfAux]
  | succ fuel ih =>
    cases l with
    | nil => simp [chunksOfAux]
    | cons a t =>
      simp only [chunksOfAux, List.flatten_cons, ih]
      exact List.take_append_drop readBufferSize (a :: t)

theorem chunksOf_flatten (l : List Nat) : (chunksOf l).flatten = l :=
  chunksOfAux_flatten l.length l

/-- Decidable equality for `Except` results, used by the concrete
witnesses. -/
instance {ε α : Type} [DecidableEq ε] [DecidableEq α] :
    DecidableEq (Except ε α) := fun a b =>
  match a, b with
  | .ok x, .ok y =>
    if h : x = y then .isTrue (by rw [h]) else .isFalse (by simp [h])
  | .error x, .error y =>
    if h : x = y then .isTrue (by rw [h]) else .isFalse (by simp [h])
  | .ok _, .error _ => .isFalse (by simp)
  | .error _, .ok _ => .isFalse (by simp)

/-- Metadata and content of one file on disk. -/
structure FileMeta where
  /-- The byte content of the file. -/
  content : List Nat
  /-- Whether the readonly permission bit is set. -/
  readonly : Bool
  /-- Filesystem creation timestamp. -/
  created : Int
  /-- Filesystem last-modification timestamp. -/
  modified : Int
deriving DecidableEq, Repr

/-- The filesystem: a map from paths (lists of components below the root)
to file metadata.  Directories are not tracked; `create_dir_all` always
succeeds and is a no-op here. -/
structure FS where
  files : List (List String × FileMeta)
deriving DecidableEq, Repr

/-- Metadata of the file at `p`, if it exists (`std::fs::metadata`). -/
def FS.find (fs : FS) (p : List String) : Option FileMeta :=
  alookup fs.files p

/-- `path.exists()`. -/
def FS.pathExists (fs : FS) (p : List String) : Bool :=
  (fs.find p).isSome

/-- Full byte content of the file at `p`, if it exists. -/
def FS.read (fs : FS) (p : List String) : Option (List Nat) :=
  (fs.find p).map FileMeta.content

/-- Create or replace the file at `p`. -/
def FS.insert (fs : FS) (p : List String) (m : FileMeta) : FS :=
  ⟨ainsert fs.files p m⟩

/-- Delete the file at `p`. -/
def FS.erase (fs : FS) (p : List String) : FS :=
  ⟨aerase fs.files p⟩

/-- Errors a store operation can surface (`failure::Error` in the source;
only the distinction between `FileStoreError::NotFound` and any I/O or
serialization failure is observable through the claims). -/
inductive FsError where
  | ioError
  | notFound
deriving DecidableEq, Repr

/-- Outcome of an operation that may panic (`expect`): either a value or a
process abort carrying the panic message. -/
inductive POut (α : Type) where
  | ok : α → POut α
  | panicked : String → POut α
deriving DecidableEq, Repr

/-- Failure oracles for the fallible I/O the claims depend on. -/
structure Env where
  /-- Whether writing the i-th content chunk in `store` fails
  (`file.write_all(&data)` returning `Err`). -/
  writeFails : Nat → Bool
  /-- Whether removing the file at this path fails
  (inside `FileStore::remove_file`). -/
  removeFails : List String → Bool

/-- `FileStoreKey`: a hash of the content of the file. -/
structure FileStoreKey where
  hash : List Nat
deriving DecidableEq, Repr

/-- `FileStoreKey::from_file`: stream the file's chunks through the hasher;
an unreadable/absent file surfaces an I/O error and no key. -/
def FileStoreKey.from_file (H : List Nat → List Nat) (fs : FS)
    (path : List String) : Except FsError FileStoreKey :=
  match fs.read path with
  | none => .error .ioError
  | some bytes =>
    let hasher := (chunksOf bytes).foldl Blake2b.input Blake2b.new
    .ok ⟨hasher.result H⟩

/-- `FileStoreKey::to_string`: lowercase hex of the digest bytes. -/
def FileStoreKey.toString (key : FileStoreKey) : String :=
  hexEncode key.hash

theorem foldl_input_acc (chunks : List (List Nat)) (h : Blake2b) :
    (chunks.foldl Blake2b.input h).acc = h.acc ++ chunks.flatten := by
  induction chunks generalizing h with
  | nil => simp
  | cons c rest ih => simp [Blake2b.input, ih]

/-- Evaluation lemma: `from_file` computes the digest of the content. -/
theorem from_file_eq (H : List Nat → List Nat) (fs : FS) (path : List String)
    (c : List Nat) (hread : fs.read path = some c) :
    FileStoreKey.from_file H fs path = .ok ⟨H c⟩ := by
  simp only [FileStoreKey.from_file, hread]
  simp [Blake2b.result, foldl_input_acc, Blake2b.new, chunksOf_flatten]

/-- `PERSISTENCY_DURATION.as_secs()`: 600 seconds. -/
def persistencySecs : Int := 600

/-- `CHECK_INTEGRITY`: integrity checking is enabled. -/
def checkIntegrityFlag : Bool := true

/-- `FileStoreItem`: per-key bookkeeping, the timestamp of when the file may
be deleted. -/
structure FileStoreItem where
  persistent : Int
deriving DecidableEq, Repr

/-- `FileStoreItem::new()`: created with `persistent = Utc::now()`. -/
def FileStoreItem.new (now : Int) : FileStoreItem := ⟨now⟩

/-- `FileStoreItem::persist()`: set `persistent` to now + 600s. -/
def FileStoreItem.persist (_item : FileStoreItem) (now : Int) : FileStoreItem :=
  ⟨now + persistencySecs⟩

/-- `FileStoreData`: the known files, keyed by the hex form of the key. -/
structure FileStoreData where
  items : List (String × FileStoreItem)
deriving DecidableEq, Repr

/-- `FileStoreData::new()`. -/
def FileStoreData.new : FileStoreData := ⟨[]⟩

/-- `self.data.get_mut(key).persist()`: fetch the item (creating it with
`FileStoreItem::new` if absent) and mark it persistent.  In the source
`get_mut` and `persist` are only ever called in this composition. -/
def FileStoreData.persistKey (d : FileStoreData) (key : FileStoreKey)
    (now : Int) : FileStoreData :=
  let item := (alookup d.items key.toString).getD (FileStoreItem.new now)
  ⟨ainsert d.items key.toString (item.persist now)⟩

/-- `FileStoreData::remove`: drop the bookkeeping entry (not the file). -/
def FileStoreData.remove (d : FileStoreData) (key : FileStoreKey) :
    FileStoreData :=
  ⟨aerase d.items key.toString⟩

/-- JSON serialization of one `FileStoreItem` (`serde_json`). -/
def FileStoreItem.serialize (item : FileStoreItem) : String :=
  "\x7b\"persistent\":" ++ ToString.toString item.persistent ++ "\x7d"

/-- JSON serialization of the whole `FileStoreData` (`serde_json::to_string`). -/
def FileStoreData.serialize (d : FileStoreData) : String :=
  "\x7b\"items\":\x7b" ++
    String.intercalate ","
      (d.items.map (fun kv => "\"" ++ kv.1 ++ "\":" ++ kv.2.serialize)) ++
    "\x7d\x7d"

/-- The `FileStore`: base directory, the (locked) `store_info` file handle —
modelled by the current content of that file — and the metadata mirror. -/
structure FileStore where
  base_path : List String
  /-- Content of the `store_info` file written through the locked handle. -/
  infoContent : String
  data : FileStoreData
deriving DecidableEq, Repr

/-- `FileStore::key_to_path`: base / hex(hash[0]) / hex(hash[1]) / hex(hash). -/
def FileStore.key_to_path (base : List String) (key : FileStoreKey) :
    List String :=
  base ++ [hexEncode (key.hash.take 1), hexEncode ((key.hash.drop 1).take 1),
    hexEncode key.hash]

/-- `FileStore::flush`: serialize the mirror and overwrite the `store_info`
file with it (seek 0, write_all, set_len). -/
def FileStore.flush (st : FileStore) : FileStore :=
  { st with infoContent := st.data.serialize }

/-- `FileStore::mark_readonly`. -/
def FS.markReadonly (fs : FS) (p : List String) : FS :=
  match fs.find p with
  | none => fs
  | some m => fs.insert p { m with readonly := true }

/-- `FileStore::remove_file`: read the metadata (fails if absent), clear the
readonly bit, delete the file.  `Env.removeFails` decides whether the
permission change / deletion syscalls fail; on failure the file is left in
place. -/
def FileStore.remove_file (env : Env) (fs : FS) (p : List String) :
    Except FsError FS :=
  match fs.find p with
  | none => .error .ioError
  | some _ =>
    if env.removeFails p then .error .ioError
    else .ok (fs.erase p)

/-- `FileStore::check_integrity`: fast path — equal creation and
modification timestamps mean intact; slow path — re-hash the current bytes
and compare with the expected key. -/
def FileStore.check_integrity (H : List Nat → List Nat) (fs : FS)
    (base : List String) (key : FileStoreKey) : Bool :=
  let path := FileStore.key_to_path base key
  match fs.find path with
  | some meta =>
    if meta.created = meta.modified then true
    else
      match FileStoreKey.from_file H fs path with
      | .ok key2 => key2.hash = key.hash
      | .error _ => false
  | none =>
    match FileStoreKey.from_file H fs path with
    | .ok key2 => key2.hash = key.hash
    | .error _ => false

/-- `FileStore::has_key`: existence probe; evicts (entry and file) on a
failed integrity check, panicking via `expect` if the file removal fails.
Returns the answer together with the mutated store and filesystem. -/
def FileStore.has_key (H : List Nat → List Nat) (env : Env) (st : FileStore)
    (fs : FS) (key : FileStoreKey) : POut (Bool × FileStore × FS) :=
  let path := FileStore.key_to_path st.base_path key
  if !(fs.pathExists path) then .ok (false, st, fs)
  else if checkIntegrityFlag && !(FileStore.check_integrity H fs st.base_path key) then
    let st2 := { st with data := st.data.remove key }
    match FileStore.remove_file env fs path with
    | .error _ => .panicked "Cannot remove corrupted file"
    | .ok fs2 => .ok (false, st2, fs2)
  else .ok (true, st, fs)

/-- `FileStore::persist`: fail with `NotFound` if the backing file is
absent; otherwise extend the entry and flush.  Returns the result together
with the mutated store (the filesystem is only read). -/
def FileStore.persist (now : Int) (st : FileStore) (fs : FS)
    (key : FileStoreKey) : Except FsError Unit × FileStore :=
  let path := FileStore.key_to_path st.base_path key
  if !(fs.pathExists path) then (.error .notFound, st)
  else
    let st2 := { st with data := st.data.persistKey key now }
    (.ok (), st2.flush)

/-- `FileStore::get`: path of the file with that key, or `none`.  A missing
file drops the stale entry and flushes; a failed integrity check drops the
entry and deletes the file (without flushing); on success the lifetime is
extended via `persist`. -/
def FileStore.get (H : List Nat → List Nat) (env : Env) (now : Int)
    (st : FileStore) (fs : FS) (key : FileStoreKey) :
    Except FsError (Option (List String)) × FileStore × FS :=
  let path := FileStore.key_to_path st.base_path key
  if !(fs.pathExists path) then
    let st2 := { st with data := st.data.remove key }
    (.ok none, st2.flush, fs)
  else if checkIntegrityFlag && !(FileStore.check_integrity H fs st.base_path key) then
    let st2 := { st with data := st.data.remove key }
    match FileStore.remove_file env fs path with
    | .error e => (.error e, st2, fs)
    | .ok fs2 => (.ok none, st2, fs2)
  else
    match FileStore.persist now st fs key with
    | (.error e, st2) => (.error e, st2, fs)
    | (.ok _, st2) => (.ok (some path), st2, fs)

/-- The content that `content.map(|data| file.write_all(&data)).last()`
leaves in the freshly created file: each chunk whose write succeeds is
appended; a failed `write_all` appends nothing — and its error is
discarded by the iterator drain, exactly as in the source. -/
def writeChunks (wf : Nat → Bool) : List (List Nat) → Nat → List Nat
  | [], _ => []
  | c :: cs, i => (if wf i then [] else c) ++ writeChunks wf cs (i + 1)

/-- `FileStore::store`: if `has_key` holds, drain the chunks, extend the
entry and flush; otherwise create the file, write the chunks (write errors
discarded), mark it readonly, extend the entry and flush. -/
def FileStore.store (H : List Nat → List Nat) (env : Env) (now : Int)
    (st : FileStore) (fs : FS) (key : FileStoreKey)
    (chunks : List (List Nat)) : POut (Except FsError Unit × FileStore × FS) :=
  let path := FileStore.key_to_path st.base_path key
  match FileStore.has_key H env st fs key with
  | .panicked m => .panicked m
  | .ok (true, st2, fs2) =>
    let st3 := { st2 with data := st2.data.persistKey key now }
    .ok (.ok (), st3.flush, fs2)
  | .ok (false, st2, fs2) =>
    let content := writeChunks env.writeFails chunks 0
    let fs3 := fs2.insert path ⟨content, false, now, now⟩
    let fs4 := fs3.markReadonly path
    let st3 := { st2 with data := st2.data.persistKey key now }
    .ok (.ok (), st3.flush, fs4)

/-- `FileStore::read_store_file`: deserialize the store file and drop every
entry whose backing file (base / key[0..2] / key[2..4] / key) no longer
exists.  Deserialization is modelled by passing the parsed
`FileStoreData` directly. -/
def FileStore.read_store_file (fs : FS) (base : List String)
    (data : FileStoreData) : FileStoreData :=
  ⟨data.items.filter (fun kv =>
    fs.pathExists (base ++ [kv.1.take 2, (kv.1.drop 2).take 2, kv.1]))⟩

/-- Result component of a `store` outcome (observer for counterexamples). -/
def storeResult : POut (Except FsError Unit × FileStore × FS) →
    Option (Except FsError Unit)
  | .ok (r, _, _) => some r
  | .panicked _ => none

/-- Filesystem component of a `store` outcome. -/
def storeFS : POut (Except FsError Unit × FileStore × FS) → Option FS
  | .ok (_, _, fs) => some fs
  | .panicked _ => none

theorem FS.find_insert (fs : FS) (p : List String) (m : FileMeta) :
    (fs.insert p m).find p = some m := by
  simp [FS.insert, FS.find, alookup_ainsert]

theorem FS.markReadonly_insert (fs : FS) (p : List String) (m : FileMeta) :
    (fs.insert p m).markReadonly p =
      (fs.insert p m).insert p { m with readonly := true } := by
  simp [FS.markReadonly, FS.find_insert]

theorem writeChunks_all_ok (wf : Nat → Bool) (chunks : List (List Nat))
    (i : Nat) (hw : ∀ j, wf j = false) :
    writeChunks wf chunks i = chunks.flatten := by
  induction chunks generalizing i with
  | nil => simp [writeChunks]
  | cons c cs ih => simp [writeChunks, hw, ih]

theorem check_integrity_of_fresh (H : List Nat → List Nat) (fs : FS)
    (base : List String) (key : FileStoreKey) (meta : FileMeta)
    (hfind : fs.find (FileStore.key_to_path base key) = some meta)
    (heq : meta.created = meta.modified) :
    FileStore.check_integrity H fs base key = true := by
  simp [FileStore.check_integrity, hfind, heq]

theorem check_integrity_false_of_tampered (H : List Nat → List Nat) (fs : FS)
    (base : List String) (key : FileStoreKey) (meta : FileMeta)
    (hfind : fs.find (FileStore.key_to_path base key) = some meta)
    (hne : meta.created ≠ meta.modified)
    (hhash : H meta.content ≠ key.hash) :
    FileStore.check_integrity H fs base key = false := by
  have hread : fs.read (FileStore.key_to_path base key) = some meta.content := by
    simp [FS.read, hfind]
  simp [FileStore.check_integrity, hfind, hne,
    from_file_eq H fs (FileStore.key_to_path base key) meta.content hread, hhash]

theorem has_key_intact (H : List Nat → List Nat) (env : Env) (st : FileStore)
    (fs : FS) (key : FileStoreKey)
    (hex : fs.pathExists (FileStore.key_to_path st.base_path key) = true)
    (hint : FileStore.check_integrity H fs st.base_path key = true) :
    FileStore.has_key H env st fs key = .ok (true, st, fs) := by
  simp [FileStore.has_key, hex, hint]

theorem has_key_absent (H : List Nat → List Nat) (env : Env) (st : FileStore)
    (fs : FS) (key : FileStoreKey)
    (habs : fs.pathExists (FileStore.key_to_path st.base_path key) = false) :
    FileStore.has_key H env st fs key = .ok (false, st, fs) := by
  simp [FileStore.has_key, habs]

theorem store_absent_eval (H : List Nat → List Nat) (env : Env) (now : Int)
    (st : FileStore) (fs : FS) (key : FileStoreKey) (chunks : List (List Nat))
    (habs : fs.pathExists (FileStore.key_to_path st.base_path key) = false) :
    FileStore.store H env now st fs key chunks =
      .ok (.ok (), ({ st with data := st.data.persistKey key now }).flush,
        ((fs.insert (FileStore.key_to_path st.base_path key)
            ⟨writeChunks env.writeFails chunks 0, false, now, now⟩).insert
          (FileStore.key_to_path st.base_path key)
            ⟨writeChunks env.writeFails chunks 0, true, now, now⟩)) := by
  rw [FileStore.store]
  rw [has_key_absent H env st fs key habs]
  simp [FS.markReadonly_insert]

theorem get_intact_eval (H : List Nat → List Nat) (env : Env) (now : Int)
    (st : FileStore) (fs : FS) (key : FileStoreKey)
    (hex : fs.pathExists (FileStore.key_to_path st.base_path key) = true)
    (hint : FileStore.check_integrity H fs st.base_path key = true) :
    FileStore.get H env now st fs key =
      (.ok (some (FileStore.key_to_path st.base_path key)),
        ({ st with data := st.data.persistKey key now }).flush, fs) := by
  simp [FileStore.get, FileStore.persist, hex, hint]

theorem get_absent_eval (H : List Nat → List Nat) (env : Env) (now : Int)
    (st : FileStore) (fs : FS) (key : FileStoreKey)
    (habs : fs.pathExists (FileStore.key_to_path st.base_path key) = false) :
    FileStore.get H env now st fs key =
      (.ok none, ({ st with data := st.data.remove key }).flush, fs) := by
  simp [FileStore.get, habs]

theorem get_corrupt_eval (H : List Nat → List Nat) (env : Env) (now : Int)
    (st : FileStore) (fs : FS) (key : FileStoreKey)
    (hex : fs.pathExists (FileStore.key_to_path st.base_path key) = true)
    (hint : FileStore.check_integrity H fs st.base_path key = false)
    (hrm : env.removeFails (FileStore.key_to_path st.base_path key) = false) :
    FileStore.get H env now st fs key =
      (.ok none, { st with data := st.data.remove key },
        fs.erase (FileStore.key_to_path st.base_path key)) := by
  obtain ⟨meta, hmeta⟩ := Option.isSome_iff_exists.mp hex
  simp [FileStore.get, FileStore.remove_file, checkIntegrityFlag, hex, hint,
    hrm, hmeta]

/-- A concrete digest function for the closed witnesses: the identity on
byte lists (every theorem holds for an arbitrary digest `H`). -/
def sampleH : List Nat → List Nat := fun l => l

/-- Environment in which every syscall succeeds. -/
def envOk : Env := ⟨fun _ => false, fun _ => false⟩

/-- Environment in which every chunk write fails. -/
def envFailWrite : Env := ⟨fun _ => true, fun _ => false⟩

/-- Environment in which every file removal fails. -/
def envFailRemove : Env := ⟨fun _ => false, fun _ => true⟩

/-- A sample key with digest bytes `[0, 1]`. -/
def sampleKey : FileStoreKey := ⟨[0, 1]⟩

/-- The sharded path of `sampleKey` under base directory `base`. -/
def samplePath : List String := ["base", "00", "01", "0001"]

/-- Filesystem holding a tampered backing file for `sampleKey`: content
`[2]` (hashing to `[2] ≠ [0, 1]` under `sampleH`), modified ≠ created. -/
def tamperedFS : FS := ⟨[(samplePath, ⟨[2], true, 0, 1⟩)]⟩

/-- Filesystem holding an intact backing file for `sampleKey`
(created = modified, so the fast integrity path accepts it). -/
def intactFS : FS := ⟨[(samplePath, ⟨[2], true, 5, 5⟩)]⟩

/-- The empty filesystem. -/
def emptyFS : FS := ⟨[]⟩

/-- A store over base directory `base` with an empty mirror. -/
def emptyStore : FileStore := ⟨["base"], "", ⟨[]⟩⟩

/-- A store whose mirror holds an entry for `sampleKey`. -/
def entryStore : FileStore := ⟨["base"], "", ⟨[("0001", ⟨3⟩)]⟩⟩

/-- A store whose mirror holds an entry for `sampleKey` and whose
`store_info` file content is exactly the mirror's serialization (i.e. the
metadata was just flushed). -/
def flushedStore : FileStore :=
  ⟨["base"], FileStoreData.serialize ⟨[("0001", ⟨3⟩)]⟩, ⟨[("0001", ⟨3⟩)]⟩⟩

/-- C1: for every pair of files whose byte contents are identical,
`FileStoreKey::from_file` applied to either path yields equal keys: the key
is a pure function of the file's content, independent of its path, name,
or timestamps. -/
theorem from_file_content_addressed (H : List Nat → List Nat)
    (fs1 fs2 : FS) (p1 p2 : List String) (c : List Nat)
    (h1 : fs1.read p1 = some c) (h2 : fs2.read p2 = some c) :
    FileStoreKey.from_file H fs1 p1 = FileStoreKey.from_file H fs2 p2 := by
  rw [from_file_eq H fs1 p1 c h1, from_file_eq H fs2 p2 c h2]

/-- Witness for C1: two concrete files with equal content but different
paths, names, permission bits and timestamps get equal keys. -/
theorem from_file_content_addressed_witness :
    FileStoreKey.from_file sampleH ⟨[(["a"], ⟨[1, 2, 3], false, 0, 0⟩)]⟩ ["a"] =
      FileStoreKey.from_file sampleH
        ⟨[(["dir", "b"], ⟨[1, 2, 3], true, 5, 9⟩)]⟩ ["dir", "b"] :=
  from_file_content_addressed sampleH _ _ ["a"] ["dir", "b"] [1, 2, 3]
    (by decide) (by decide)

/-- C2: storing a chunk sequence under a key whose backing file was absent
succeeds, and a subsequent `get` returns the sharded path, whose file
content is the concatenation of the chunks. -/
theorem store_then_get_roundtrip (H : List Nat → List Nat) (env : Env)
    (now now2 : Int) (st : FileStore) (fs : FS) (key : FileStoreKey)
    (chunks : List (List Nat))
    (habs : fs.pathExists (FileStore.key_to_path st.base_path key) = false)
    (hw : ∀ i, env.writeFails i = false) :
    ∃ st1 fs1 st2 fs2,
      FileStore.store H env now st fs key chunks = .ok (.ok (), st1, fs1) ∧
      FileStore.get H env now2 st1 fs1 key =
        (.ok (some (FileStore.key_to_path st.base_path key)), st2, fs2) ∧
      fs2.read (FileStore.key_to_path st.base_path key) =
        some chunks.flatten := by
  have hstore := store_absent_eval H env now st fs key chunks habs
  have hget := get_intact_eval H env now2
    (({ st with data := st.data.persistKey key now }).flush)
    ((fs.insert (FileStore.key_to_path st.base_path key)
        ⟨writeChunks env.writeFails chunks 0, false, now, now⟩).insert
      (FileStore.key_to_path st.base_path key)
        ⟨writeChunks env.writeFails chunks 0, true, now, now⟩)
    key (by simp [FS.pathExists, FileStore.flush, FS.find_insert])
    (check_integrity_of_fresh H _ _ key
      ⟨writeChunks env.writeFails chunks 0, true, now, now⟩
      (FS.find_insert _ _ _) rfl)
  have hread : ((fs.insert (FileStore.key_to_path st.base_path key)
        ⟨writeChunks env.writeFails chunks 0, false, now, now⟩).insert
      (FileStore.key_to_path st.base_path key)
        ⟨writeChunks env.writeFails chunks 0, true, now, now⟩).read
      (FileStore.key_to_path st.base_path key) = some chunks.flatten := by
    simp [FS.read, FS.find_insert, writeChunks_all_ok env.writeFails chunks 0 hw]
  exact ⟨_, _, _, _, hstore, hget, hread⟩

/-- Witness for C2 on the empty store with chunks `[[1], [2, 3]]`. -/
theorem store_then_get_roundtrip_witness :
    ∃ st1 fs1 st2 fs2,
      FileStore.store sampleH envOk 0 emptyStore emptyFS sampleKey
        [[1], [2, 3]] = .ok (.ok (), st1, fs1) ∧
      FileStore.get sampleH envOk 50 st1 fs1 sampleKey =
        (.ok (some (FileStore.key_to_path emptyStore.base_path sampleKey)),
          st2, fs2) ∧
      fs2.read (FileStore.key_to_path emptyStore.base_path sampleKey) =
        some [1, 2, 3] :=
  store_then_get_roundtrip sampleH envOk 0 50 emptyStore emptyFS sampleKey
    [[1], [2, 3]] (by decide) (fun _ => rfl)

/-- C3: on a backing file whose current bytes hash to a different key and
whose modification time differs from its creation time, `get` reports
absent, the backing file is deleted, and the mirror has no entry for the
key. -/
theorem get_corrupted_self_heals (H : List Nat → List Nat) (env : Env)
    (now : Int) (st : FileStore) (fs : FS) (key : FileStoreKey)
    (meta : FileMeta)
    (hfind : fs.find (FileStore.key_to_path st.base_path key) = some meta)
    (hne : meta.created ≠ meta.modified)
    (hhash : H meta.content ≠ key.hash)
    (hrm : env.removeFails (FileStore.key_to_path st.base_path key) = false) :
    FileStore.get H env now st fs key =
      (.ok none, { st with data := st.data.remove key },
        fs.erase (FileStore.key_to_path st.base_path key)) ∧
    (fs.erase (FileStore.key_to_path st.base_path key)).pathExists
      (FileStore.key_to_path st.base_path key) = false ∧
    alookup ({ st with data := st.data.remove key }).data.items key.toString =
      none := by
  have hex : fs.pathExists (FileStore.key_to_path st.base_path key) = true := by
    simp [FS.pathExists, hfind]
  have hint :=
    check_integrity_false_of_tampered H fs st.base_path key meta hfind hne hhash
  refine ⟨get_corrupt_eval H env now st fs key hex hint hrm, ?_, ?_⟩
  · simp [FS.pathExists, FS.find, FS.erase, alookup_aerase]
  · simp [FileStoreData.remove, alookup_aerase]

/-- Witness for C3 on a concrete tampered file (content `[2]`, created 0,
modified 1, expected digest `[0, 1]`). -/
theorem get_corrupted_self_heals_witness :
    FileStore.get sampleH envOk 100 entryStore tamperedFS sampleKey =
      (.ok none, { entryStore with data := entryStore.data.remove sampleKey },
        tamperedFS.erase samplePath) ∧
    (tamperedFS.erase samplePath).pathExists samplePath = false ∧
    alookup ({ entryStore with
      data := entryStore.data.remove sampleKey }).data.items
      sampleKey.toString = none :=
  get_corrupted_self_heals sampleH envOk 100 entryStore tamperedFS sampleKey
    ⟨[2], true, 0, 1⟩ (by decide) (by decide) (by decide) (by decide)

/-- C4 (amended): for a key whose backing file exists AND passes the
integrity check, `store` drains the chunks without touching the filesystem
(the returned filesystem is the input one), extends the entry's
`persist_until` to now + 600 s, flushes the metadata, and returns `Ok`. -/
theorem store_existing_intact_no_write (H : List Nat → List Nat) (env : Env)
    (now : Int) (st : FileStore) (fs : FS) (key : FileStoreKey)
    (chunks : List (List Nat))
    (hex : fs.pathExists (FileStore.key_to_path st.base_path key) = true)
    (hint : FileStore.check_integrity H fs st.base_path key = true) :
    ∃ st2, FileStore.store H env now st fs key chunks =
        .ok (.ok (), st2, fs) ∧
      alookup st2.data.items key.toString = some ⟨now + persistencySecs⟩ ∧
      st2.infoContent = st2.data.serialize := by
  simp only [FileStore.store, has_key_intact H env st fs key hex hint]
  refine ⟨_, rfl, ?_, rfl⟩
  simp [FileStore.flush, FileStoreData.persistKey, FileStoreItem.persist,
    alookup_ainsert]

/-- Witness for the amended C4 on a concrete intact entry. -/
theorem store_existing_intact_no_write_witness :
    ∃ st2, FileStore.store sampleH envOk 100 entryStore intactFS sampleKey
        [[9]] = .ok (.ok (), st2, intactFS) ∧
      alookup st2.data.items sampleKey.toString = some ⟨100 + persistencySecs⟩ ∧
      st2.infoContent = st2.data.serialize :=
  store_existing_intact_no_write sampleH envOk 100 entryStore intactFS
    sampleKey [[9]] (by decide) (by decide)

/-- Counterexample to C4 as stated: the backing file for `sampleKey`
exists (holding tampered bytes), yet `store` does write to the backing
file — afterwards its content is the supplied chunk `[7]`, not the
pre-existing `[2]`, so the chunk sequence was not merely drained. -/
theorem store_existing_writes_cex :
    tamperedFS.pathExists samplePath = true ∧
    tamperedFS.read samplePath = some [2] ∧
    storeResult (FileStore.store sampleH envOk 100 entryStore tamperedFS
      sampleKey [[7]]) = some (.ok ()) ∧
    (storeFS (FileStore.store sampleH envOk 100 entryStore tamperedFS
      sampleKey [[7]])).bind (fun fs2 => fs2.read samplePath) = some [7] := by
  decide

/-- C9: on an intact entry `has_key` returns true and leaves the whole
store state (mirror, `persist_until`, metadata file) and the filesystem
unchanged, while `get` on the same entry extends the entry's
`persist_until` to now + 600 s. -/
theorem has_key_no_extend_get_extends (H : List Nat → List Nat) (env : Env)
    (now : Int) (st : FileStore) (fs : FS) (key : FileStoreKey)
    (hex : fs.pathExists (FileStore.key_to_path st.base_path key) = true)
    (hint : FileStore.check_integrity H fs st.base_path key = true) :
    FileStore.has_key H env st fs key = .ok (true, st, fs) ∧
    ∃ st2, FileStore.get H env now st fs key =
        (.ok (some (FileStore.key_to_path st.base_path key)), st2, fs) ∧
      alookup st2.data.items key.toString = some ⟨now + persistencySecs⟩ := by
  refine ⟨has_key_intact H env st fs key hex hint, _,
    get_intact_eval H env now st fs key hex hint, ?_⟩
  simp [FileStore.flush, FileStoreData.persistKey, FileStoreItem.persist,
    alookup_ainsert]

/-- Witness for C9 on a concrete intact entry. -/
theorem has_key_no_extend_get_extends_witness :
    FileStore.has_key sampleH envOk entryStore intactFS sampleKey =
      .ok (true, entryStore, intactFS) ∧
    ∃ st2, FileStore.get sampleH envOk 100 entryStore intactFS sampleKey =
        (.ok (some (FileStore.key_to_path entryStore.base_path sampleKey)),
          st2, intactFS) ∧
      alookup st2.data.items sampleKey.toString =
        some ⟨100 + persistencySecs⟩ :=
  has_key_no_extend_get_extends sampleH envOk 100 entryStore intactFS
    sampleKey (by decide) (by decide)

/-- C10: when removing a corrupted backing file fails, `has_key` panics
with the `expect` message, while `get` propagates the same failure to the
caller as an `Err` result. -/
theorem remove_failure_panics_vs_propagates (H : List Nat → List Nat)
    (env : Env) (now : Int) (st : FileStore) (fs : FS) (key : FileStoreKey)
    (hex : fs.pathExists (FileStore.key_to_path st.base_path key) = true)
    (hint : FileStore.check_integrity H fs st.base_path key = false)
    (hrm : env.removeFails (FileStore.key_to_path st.base_path key) = true) :
    FileStore.has_key H env st fs key =
      .panicked "Cannot remove corrupted file" ∧
    (FileStore.get H env now st fs key).1 = .error .ioError := by
  obtain ⟨meta, hmeta⟩ := Option.isSome_iff_exists.mp hex
  constructor
  · simp [FileStore.has_key, FileStore.remove_file, checkIntegrityFlag, hex,
      hint, hrm, hmeta]
  · simp [FileStore.get, FileStore.remove_file, checkIntegrityFlag, hex,
      hint, hrm, hmeta]

/-- Witness for C10 on a concrete tampered entry with failing removal. -/
theorem remove_failure_panics_vs_propagates_witness :
    FileStore.has_key sampleH envFailRemove entryStore tamperedFS sampleKey =
      .panicked "Cannot remove corrupted file" ∧
    (FileStore.get sampleH envFailRemove 100 entryStore tamperedFS
      sampleKey).1 = .error .ioError :=
  remove_failure_panics_vs_propagates sampleH envFailRemove 100 entryStore
    tamperedFS sampleKey (by decide) (by decide) (by decide)

theorem flush_flushed (st : FileStore) :
    st.flush.infoContent = st.flush.data.serialize := rfl

/-- C5 (amended): `store` and `persist`, whenever they return `Ok`, leave
the on-disk metadata file equal to the JSON serialization of the mirror,
and so does `get` whenever the backing file is absent or passes the
integrity check; the corruption-eviction branches of `get` and `has_key`,
however, do not rewrite the metadata file (they leave its previous
content in place while the mirror changes). -/
theorem metadata_write_through :
    (∀ (H : List Nat → List Nat) (env : Env) (now : Int) (st : FileStore)
      (fs : FS) (key : FileStoreKey) (chunks : List (List Nat))
      (r : Except FsError Unit) (st2 : FileStore) (fs2 : FS),
      FileStore.store H env now st fs key chunks = .ok (r, st2, fs2) →
      st2.infoContent = st2.data.serialize) ∧
    (∀ (now : Int) (st : FileStore) (fs : FS) (key : FileStoreKey)
      (st2 : FileStore),
      FileStore.persist now st fs key = (.ok (), st2) →
      st2.infoContent = st2.data.serialize) ∧
    (∀ (H : List Nat → List Nat) (env : Env) (now : Int) (st : FileStore)
      (fs : FS) (key : FileStoreKey),
      (fs.pathExists (FileStore.key_to_path st.base_path key) = false ∨
        FileStore.check_integrity H fs st.base_path key = true) →
      (FileStore.get H env now st fs key).2.1.infoContent =
        (FileStore.get H env now st fs key).2.1.data.serialize) ∧
    (∀ (H : List Nat → List Nat) (env : Env) (st : FileStore) (fs : FS)
      (key : FileStoreKey) (b : Bool) (st2 : FileStore) (fs2 : FS),
      FileStore.has_key H env st fs key = .ok (b, st2, fs2) →
      st2.infoContent = st.infoContent) ∧
    (∀ (H : List Nat → List Nat) (env : Env) (now : Int) (st : FileStore)
      (fs : FS) (key : FileStoreKey),
      fs.pathExists (FileStore.key_to_path st.base_path key) = true →
      FileStore.check_integrity H fs st.base_path key = false →
      (FileStore.get H env now st fs key).2.1.infoContent =
        st.infoContent) := by
  refine ⟨?_, ?_, ?_, ?_, ?_⟩
  · intro H env now st fs key chunks r st2 fs2 h
    simp only [FileStore.store] at h
    cases hk : FileStore.has_key H env st fs key with
    | panicked m => simp [hk] at h
    | ok t =>
      obtain ⟨b, stx, fsx⟩ := t
      cases b <;>
      · rw [hk] at h
        simp only [POut.ok.injEq, Prod.mk.injEq] at h
        obtain ⟨-, h2, -⟩ := h
        rw [← h2]
        exact flush_flushed _
  · intro now st fs key st2 h
    cases hpe : fs.pathExists (FileStore.key_to_path st.base_path key) with
    | false =>
      simp [FileStore.persist, hpe] at h
    | true =>
      simp only [FileStore.persist, hpe, Bool.not_true, Bool.false_eq_true,
        if_false, Prod.mk.injEq] at h
      rw [← h.2]
      exact flush_flushed _
  · intro H env now st fs key hor
    cases hpe : fs.pathExists (FileStore.key_to_path st.base_path key) with
    | false =>
      rw [get_absent_eval H env now st fs key hpe]
      exact flush_flushed _
    | true =>
      cases hor with
      | inl h => rw [h] at hpe; cases hpe
      | inr hint =>
        rw [get_intact_eval H env now st fs key hpe hint]
        exact flush_flushed _
  · intro H env st fs key b st2 fs2 h
    cases hpe : fs.pathExists (FileStore.key_to_path st.base_path key) with
    | false =>
      simp only [FileStore.has_key, hpe, Bool.not_false, if_true,
        POut.ok.injEq, Prod.mk.injEq] at h
      rw [← h.2.1]
    | true =>
      cases hint : FileStore.check_integrity H fs st.base_path key with
      | true =>
        have := has_key_intact H env st fs key hpe hint
        rw [this] at h
        simp only [POut.ok.injEq, Prod.mk.injEq] at h
        rw [← h.2.1]
      | false =>
        cases hrf : FileStore.remove_file env fs
            (FileStore.key_to_path st.base_path key) with
        | error e =>
          simp [FileStore.has_key, hpe, hint, checkIntegrityFlag, hrf] at h
        | ok fsx =>
          simp [FileStore.has_key, hpe, hint, checkIntegrityFlag, hrf] at h
          rw [← h.2.1]
  · intro H env now st fs key hpe hint
    cases hrf : FileStore.remove_file env fs
        (FileStore.key_to_path st.base_path key) with
    | error e =>
      simp [FileStore.get, hpe, hint, checkIntegrityFlag, hrf]
    | ok fsx =>
      simp [FileStore.get, hpe, hint, checkIntegrityFlag, hrf]

/-- Counterexample to C5 as stated: starting from a store whose metadata
file matches the mirror, `get` on a corrupted entry evicts the mirror
entry but does not rewrite the metadata file, which afterwards still holds
the serialization of the old mirror. -/
theorem get_corrupt_stale_metadata_cex :
    flushedStore.infoContent = flushedStore.data.serialize ∧
    (FileStore.get sampleH envOk 100 flushedStore tamperedFS sampleKey).1 =
      .ok none ∧
    (FileStore.get sampleH envOk 100 flushedStore tamperedFS
        sampleKey).2.1.infoContent ≠
      (FileStore.get sampleH envOk 100 flushedStore tamperedFS
        sampleKey).2.1.data.serialize := by
  decide

/-- Witness for the amended C5, instantiating every conjunct at concrete
states. -/
theorem metadata_write_through_witness :
    (⟨["base"], "\x7b\"items\":\x7b\"0001\":\x7b\"persistent\":600\x7d\x7d\x7d",
        ⟨[("0001", ⟨600⟩)]⟩⟩ : FileStore).infoContent =
      (⟨["base"], "\x7b\"items\":\x7b\"0001\":\x7b\"persistent\":600\x7d\x7d\x7d",
        ⟨[("0001", ⟨600⟩)]⟩⟩ : FileStore).data.serialize ∧
    (⟨["base"], "\x7b\"items\":\x7b\"0001\":\x7b\"persistent\":700\x7d\x7d\x7d",
        ⟨[("0001", ⟨700⟩)]⟩⟩ : FileStore).infoContent =
      (⟨["base"], "\x7b\"items\":\x7b\"0001\":\x7b\"persistent\":700\x7d\x7d\x7d",
        ⟨[("0001", ⟨700⟩)]⟩⟩ : FileStore).data.serialize ∧
    (FileStore.get sampleH envOk 0 entryStore emptyFS sampleKey).2.1.infoContent =
      (FileStore.get sampleH envOk 0 entryStore emptyFS
        sampleKey).2.1.data.serialize ∧
    (⟨["base"], "", ⟨[]⟩⟩ : FileStore).infoContent = entryStore.infoContent ∧
    (FileStore.get sampleH envOk 100 flushedStore tamperedFS
        sampleKey).2.1.infoContent = flushedStore.infoContent :=
  ⟨metadata_write_through.1 sampleH envOk 0 emptyStore emptyFS sampleKey
      [[1]] (.ok ())
      ⟨["base"], "\x7b\"items\":\x7b\"0001\":\x7b\"persistent\":600\x7d\x7d\x7d",
        ⟨[("0001", ⟨600⟩)]⟩⟩
      ⟨[(["base", "00", "01", "0001"], ⟨[1], true, 0, 0⟩)]⟩ (by decide),
    metadata_write_through.2.1 100 entryStore intactFS sampleKey
      ⟨["base"], "\x7b\"items\":\x7b\"0001\":\x7b\"persistent\":700\x7d\x7d\x7d",
        ⟨[("0001", ⟨700⟩)]⟩⟩ (by decide),
    metadata_write_through.2.2.1 sampleH envOk 0 entryStore emptyFS sampleKey
      (Or.inl (by decide)),
    metadata_write_through.2.2.2.1 sampleH envOk entryStore tamperedFS
      sampleKey false ⟨["base"], "", ⟨[]⟩⟩ ⟨[]⟩ (by decide),
    metadata_write_through.2.2.2.2 sampleH envOk 100 flushedStore tamperedFS
      sampleKey (by decide) (by decide)⟩

/-- C6 (amended): per-chunk write failures during `store` are discarded
rather than propagated: for every write-failure oracle, storing under an
absent key still returns `Ok`, and the backing file holds exactly the
chunks whose writes succeeded. -/
theorem store_discards_write_errors (H : List Nat → List Nat) (env : Env)
    (now : Int) (st : FileStore) (fs : FS) (key : FileStoreKey)
    (chunks : List (List Nat))
    (habs : fs.pathExists (FileStore.key_to_path st.base_path key) = false) :
    ∃ st2 fs2, FileStore.store H env now st fs key chunks =
        .ok (.ok (), st2, fs2) ∧
      fs2.read (FileStore.key_to_path st.base_path key) =
        some (writeChunks env.writeFails chunks 0) := by
  have hstore := store_absent_eval H env now st fs key chunks habs
  have hread : ((fs.insert (FileStore.key_to_path st.base_path key)
        ⟨writeChunks env.writeFails chunks 0, false, now, now⟩).insert
      (FileStore.key_to_path st.base_path key)
        ⟨writeChunks env.writeFails chunks 0, true, now, now⟩).read
      (FileStore.key_to_path st.base_path key) =
      some (writeChunks env.writeFails chunks 0) := by
    simp [FS.read, FS.find_insert]
  exact ⟨_, _, hstore, hread⟩

/-- Witness for the amended C6 in an environment where every write fails. -/
theorem store_discards_write_errors_witness :
    ∃ st2 fs2, FileStore.store sampleH envFailWrite 0 emptyStore emptyFS
        sampleKey [[5]] = .ok (.ok (), st2, fs2) ∧
      fs2.read (FileStore.key_to_path emptyStore.base_path sampleKey) =
        some (writeChunks envFailWrite.writeFails [[5]] 0) :=
  store_discards_write_errors sampleH envFailWrite 0 emptyStore emptyFS
    sampleKey [[5]] (by decide)

/-- Counterexample to C6 as stated: the write of the only chunk fails, yet
`store` returns `Ok` (not that error), leaving an empty backing file. -/
theorem store_swallows_write_error_cex :
    envFailWrite.writeFails 0 = true ∧
    storeResult (FileStore.store sampleH envFailWrite 0 emptyStore emptyFS
      sampleKey [[5]]) = some (.ok ()) ∧
    (storeFS (FileStore.store sampleH envFailWrite 0 emptyStore emptyFS
      sampleKey [[5]])).bind (fun fs2 => fs2.read samplePath) = some [] := by
  decide

/-- C7 (amended): at load, `read_store_file` keeps only entries whose
backing file exists, and `get` observing an absent backing file removes
the mirror entry; `persist` observing an absent backing file, however,
returns the not-found error without removing the stale entry (and
`has_key` likewise returns false leaving the mirror untouched). -/
theorem mirror_reconciliation :
    (∀ (fs : FS) (base : List String) (d : FileStoreData)
      (kv : String × FileStoreItem),
      kv ∈ (FileStore.read_store_file fs base d).items →
      fs.pathExists (base ++ [kv.1.take 2, (kv.1.drop 2).take 2, kv.1]) =
        true) ∧
    (∀ (H : List Nat → List Nat) (env : Env) (now : Int) (st : FileStore)
      (fs : FS) (key : FileStoreKey),
      fs.pathExists (FileStore.key_to_path st.base_path key) = false →
      alookup (FileStore.get H env now st fs key).2.1.data.items
        key.toString = none) := by
  constructor
  · intro fs base d kv hmem
    exact (List.mem_filter.mp hmem).2
  · intro H env now st fs key habs
    rw [get_absent_eval H env now st fs key habs]
    simp [FileStore.flush, FileStoreData.remove, alookup_aerase]

/-- Witness for the amended C7 at a concrete reconciled load and a
concrete `get` on a missing file. -/
theorem mirror_reconciliation_witness :
    intactFS.pathExists
      (["base"] ++ ["0001".take 2, ("0001".drop 2).take 2, "0001"]) = true ∧
    alookup (FileStore.get sampleH envOk 100 entryStore emptyFS
      sampleKey).2.1.data.items sampleKey.toString = none :=
  ⟨mirror_reconciliation.1 intactFS ["base"] ⟨[("0001", ⟨3⟩)]⟩ ("0001", ⟨3⟩)
      (by decide),
    mirror_reconciliation.2 sampleH envOk 100 entryStore emptyFS sampleKey
      (by decide)⟩

/-- Counterexample to C7 as stated: `persist` on a key whose backing file
is absent observes the absence, returns the not-found error, and leaves
the stale mirror entry in place. -/
theorem persist_missing_keeps_entry_cex :
    emptyFS.pathExists samplePath = false ∧
    alookup entryStore.data.items sampleKey.toString = some ⟨3⟩ ∧
    (FileStore.persist 100 entryStore emptyFS sampleKey).1 =
      .error .notFound ∧
    alookup (FileStore.persist 100 entryStore emptyFS sampleKey).2.data.items
      sampleKey.toString = some ⟨3⟩ := by
  decide

/-- C8: `persist` returns the not-found error iff the backing file is
absent; when the file exists, `persist` returns `Ok`, extends the entry's
`persist_until` to now + 600 s, and flushes the metadata. -/
theorem persist_not_found_iff (now : Int) (st : FileStore) (fs : FS)
    (key : FileStoreKey) :
    ((FileStore.persist now st fs key).1 = .error .notFound ↔
      fs.pathExists (FileStore.key_to_path st.base_path key) = false) ∧
    (fs.pathExists (FileStore.key_to_path st.base_path key) = true →
      (FileStore.persist now st fs key).1 = .ok () ∧
      alookup (FileStore.persist now st fs key).2.data.items key.toString =
        some ⟨now + persistencySecs⟩ ∧
      (FileStore.persist now st fs key).2.infoContent =
        (FileStore.persist now st fs key).2.data.serialize) := by
  cases hpe : fs.pathExists (FileStore.key_to_path st.base_path key) with
  | false =>
    constructor
    · simp [FileStore.persist, hpe]
    · intro h
      simp at h
  | true =>
    constructor
    · simp [FileStore.persist, hpe]
    · intro _
      refine ⟨?_, ?_, ?_⟩ <;>
        simp [FileStore.persist, hpe, FileStore.flush,
          FileStoreData.persistKey, FileStoreItem.persist, alookup_ainsert]

/-- Witness for C8 at a concrete present entry. -/
theorem persist_not_found_iff_witness :
    ((FileStore.persist 100 entryStore intactFS sampleKey).1 =
        .error .notFound ↔
      intactFS.pathExists
        (FileStore.key_to_path entryStore.base_path sampleKey) = false) ∧
    ((FileStore.persist 100 entryStore intactFS sampleKey).1 = .ok () ∧
      alookup (FileStore.persist 100 entryStore intactFS
        sampleKey).2.data.items sampleKey.toString =
        some ⟨100 + persistencySecs⟩ ∧
      (FileStore.persist 100 entryStore intactFS sampleKey).2.infoContent =
        (FileStore.persist 100 entryStore intactFS
          sampleKey).2.data.serialize) :=
  ⟨(persist_not_found_iff 100 entryStore intactFS sampleKey).1,
    (persist_not_found_iff 100 entryStore intactFS sampleKey).2 (by decide)⟩
